import Mathlib

/-!
# Verification of the YouTube transcript extractor

A shallow embedding of `src/main.py` (class `YouTubeTranscriptExtractor`
and the orchestrating `main` loop).  Python strings are modelled as lists
of characters (`Str`); the Python string primitives the source uses
(`str.strip`, `str.split`, `str.startswith`, `in`, `str.replace`,
`Path.stem`) are defined below on that representation.  Digits and
whitespace are modelled as their ASCII subsets.
-/

abbrev Str := List Char

/-- Python whitespace, as stripped by no-argument `str.strip` (ASCII subset:
space, tab, newline, carriage return, vertical tab, form feed). -/
def isPySpace (c : Char) : Bool :=
  match c with
  | ' ' | '\t' | '\n' | '\r' | '\x0b' | '\x0c' => true
  | _ => false

/-- Python `str.strip()`: drop whitespace from both ends. -/
def pyStrip (l : Str) : Str :=
  ((l.dropWhile isPySpace).reverse.dropWhile isPySpace).reverse

/-- Python `content.split(chr(10))`: split on newline characters; always
returns at least one (possibly empty) piece. -/
def splitNl : Str → List Str
  | [] => [[]]
  | c :: rest =>
    match splitNl rest with
    | [] => [[]]
    | l :: ls => if c = '\n' then [] :: l :: ls else (c :: l) :: ls

/-- Python `sep.join(pieces)`. -/
def joinSep (sep : Str) : List Str → Str
  | [] => []
  | [x] => x
  | x :: y :: rest => x ++ sep ++ joinSep sep (y :: rest)

/-- Whether the first list is an initial segment of the second
(Python `str.startswith`). -/
def isPre : Str → Str → Bool
  | [], _ => true
  | _ :: _, [] => false
  | a :: as, b :: bs => if a = b then isPre as bs else false

/-- Python substring containment (`pat in l`, for non-empty `pat`). -/
def containsSub (pat : Str) : Str → Bool
  | [] => isPre pat []
  | c :: rest => isPre pat (c :: rest) || containsSub pat rest

/-- Python `l.split(sep)[0]` for non-empty `sep`: the characters before the
first occurrence of `sep`, or all of `l` when `sep` does not occur. -/
def splitFirstOn (sep : Str) : Str → Str
  | [] => []
  | c :: rest => if isPre sep (c :: rest) then [] else c :: splitFirstOn sep rest

/-- Worker for `removeSub`, structurally recursive on fuel.  Each step
consumes at least one character of the list and one unit of fuel, so fuel
at least the list's length never runs out: when it reaches zero the list
is already empty. -/
def removeSubGo (p : Char) (ps : Str) : Nat → Str → Str
  | 0, _ => []
  | _ + 1, [] => []
  | fuel + 1, c :: rest =>
    if isPre (p :: ps) (c :: rest) then
      removeSubGo p ps fuel (rest.drop ps.length)
    else c :: removeSubGo p ps fuel rest

/-- Python `l.replace(pattern, by the empty string)` for the non-empty
pattern `p :: ps`: remove every non-overlapping occurrence, scanning left
to right. -/
def removeSub (p : Char) (ps : Str) (l : Str) : Str :=
  removeSubGo p ps l.length l

/-- Index of the last `.` in a list of characters (Python `name.rfind(chr(46))`),
`none` when there is no dot. -/
def lastDotIdx : Str → Option Nat
  | [] => none
  | c :: rest =>
    match lastDotIdx rest with
    | some j => some (j + 1)
    | none => if c = '.' then some 0 else none

/-- Python `pathlib.PurePath.stem` on a file name: the name without its final
extension.  The suffix is non-empty exactly when the last dot sits strictly
between the first and last character. -/
def pathStem (name : Str) : Str :=
  match lastDotIdx name with
  | some i => if 0 < i ∧ i + 1 < name.length then name.take i else name
  | none => name

/-! ## URL pattern matching (`extract_video_id`) -/

/-- The character class `[a-zA-Z0-9_-]` of the video-id capture groups. -/
def isIdChar (c : Char) : Bool :=
  if ('a' ≤ c ∧ c ≤ 'z') ∨ ('A' ≤ c ∧ c ≤ 'Z') ∨ ('0' ≤ c ∧ c ≤ '9') ∨ c = '_' ∨ c = '-'
  then true else false

/-- Take exactly 11 id-class characters from the front, if present. -/
def take11 (l : Str) : Option Str :=
  if (l.take 11).length = 11 ∧ (l.take 11).all isIdChar then some (l.take 11) else none

/-- Python `re.search` of one URL pattern: find the leftmost occurrence of the
pattern's literal part that is followed by 11 id-class characters, and
return those 11 characters (the capture group). -/
def searchPattern (lit : Str) : Str → Option Str
  | [] => none
  | c :: rest =>
    if isPre lit (c :: rest) then
      match take11 ((c :: rest).drop lit.length) with
      | some v => some v
      | none => searchPattern lit rest
    else searchPattern lit rest

/-- The function `extract_video_id`: try the four URL regexes in order with `re.search`
and return the first capture.  Each source pattern is an optional scheme
part `(?:https?://)?(?:www\.)?`, a fixed literal, and an 11-character
capture of `[a-zA-Z0-9_-]`.  The optional parts never change the capture:
every literal starts with the letter y, which occurs in none of the
optional-prefix texts, so the leftmost full-pattern match always captures
the 11 characters after the leftmost literal occurrence that is followed
by 11 id-class characters — exactly what `searchPattern` computes. -/
def extract_video_id (url : Str) : Option Str :=
  match searchPattern "youtube.com/watch?v=".data url with
  | some v => some v
  | none =>
  match searchPattern "youtu.be/".data url with
  | some v => some v
  | none =>
  match searchPattern "youtube.com/shorts/".data url with
  | some v => some v
  | none => searchPattern "youtube.com/embed/".data url

/-! ## The sequence-index guard (`is_timestamp_line`) -/

/-- The regex alternative `\d+` anchored on both sides: a non-empty line of
digits only. -/
def isAllDigits (l : Str) : Bool :=
  if l = [] then false else l.all Char.isDigit

/-- The optional fraction `(\.\d{3})?` followed by end of line. -/
def optFrac : Str → Bool
  | [] => true
  | ['.', a, b, c] => a.isDigit && b.isDigit && c.isDigit
  | _ => false

/-- The optional seconds `(:\d{2})?` followed by `optFrac`.  When the line
continues with a colon the seconds group is the only viable reading (the
fraction and end-of-line alternatives both reject a colon), so no
backtracking is lost by committing to the first arm. -/
def optSec : Str → Bool
  | ':' :: a :: b :: rest => a.isDigit && b.isDigit && optFrac rest
  | rest => optFrac rest

/-- The minutes `\d{2}` followed by `optSec`. -/
def minutesPart : Str → Bool
  | a :: b :: rest => a.isDigit && b.isDigit && optSec rest
  | _ => false

/-- The regex alternative `\d{1,2}:\d{2}(:\d{2})?(\.\d{3})?` anchored on
both sides.  The hour has one or two digits; as the next character decides
which (a colon after one digit, a digit before the colon otherwise), the
two arms are disjoint and no backtracking is lost. -/
def bareTs : Str → Bool
  | a :: ':' :: rest => a.isDigit && minutesPart rest
  | a :: b :: ':' :: rest => a.isDigit && b.isDigit && minutesPart rest
  | _ => false

/-- The predicate `is_timestamp_line`: `re.match` of the compiled
`^\d+$|^\d{1,2}:\d{2}(:\d{2})?(\.\d{3})?$` (digits modelled as ASCII). -/
def is_timestamp_line (l : Str) : Bool :=
  isAllDigits l || bareTs l

/-- Python `":" in line`. -/
def hasColon : Str → Bool
  | [] => false
  | c :: rest => if c = ':' then true else hasColon rest

/-! ## Tag stripping and timestamp formatting -/

/-- Worker for `remove_vtt_tags`: `none` = outside a tag; `some buf` = after
an unmatched opening angle bracket, with the scanned characters buffered in
reverse.  If the line ends before a closing bracket, the buffered characters
are literal output (the regex `<[^>]*>` needs the closing bracket). -/
def rvtGo : Option Str → Str → Str
  | none, [] => []
  | some buf, [] => buf.reverse
  | none, c :: rest => if c = '<' then rvtGo (some [c]) rest else c :: rvtGo none rest
  | some buf, c :: rest => if c = '>' then rvtGo none rest else rvtGo (some (c :: buf)) rest

/-- The function `remove_vtt_tags`: `re.sub` of `<[^>]*>` by the empty string. -/
def remove_vtt_tags (l : Str) : Str := rvtGo none l

/-- The function `format_vtt_timestamp`: `vtt_time.split(".")` and take the first piece
(`len(parts) > 0` always holds, so this is the prefix before the first
dot). -/
def format_vtt_timestamp (vtt_time : Str) : Str :=
  splitFirstOn ['.'] vtt_time

/-! ## The per-line VTT pass (`process_vtt_file`) -/

/-- The substring `-->` tested by `"-->" in line`. -/
def arrowSub : Str := ['-', '-', '>']

/-- The separator `" --> "` used by `line.split(" --> ")`. -/
def arrowSep : Str := [' ', '-', '-', '>', ' ']

/-- The first skip test of the loop body: empty line, `WEBVTT` header, or a
`NOTE` / `STYLE` / `Kind:` / `Language:` marker. -/
def isHeaderSkip (line : Str) : Bool :=
  if line = [] then true
  else if line = "WEBVTT".data then true
  else isPre "NOTE".data line || isPre "STYLE".data line ||
       isPre "Kind:".data line || isPre "Language:".data line

/-- The sequence-index skip test:
`self.is_timestamp_line(line) and not ":" in line`. -/
def isIndexSkip (line : Str) : Bool :=
  is_timestamp_line line && !hasColon line

/-- List membership used for `clean_line not in seen_segments` (the Python
set is modelled as the list of its elements in insertion order; only
membership is consumed). -/
def memStr (x : Str) : List Str → Bool
  | [] => false
  | y :: ys => if x = y then true else memStr x ys

/-- The loop state of `process_vtt_file`: `text_builder`, `seen_segments`
(in insertion order — each emission appends the emitted segment's cleaned
text), and `current_timestamp`. -/
structure VttState where
  builder : List Str
  seen : List Str
  current_timestamp : Option Str
deriving DecidableEq

def initState : VttState := ⟨[], [], none⟩

/-- One iteration of the `for line in lines` loop of `process_vtt_file`. -/
def processLine (include_timestamps : Bool) (st : VttState) (raw : Str) : VttState :=
  let line := pyStrip raw
  if isHeaderSkip line then st
  else if containsSub arrowSub line then
    (if include_timestamps then
      let ts := format_vtt_timestamp (splitFirstOn arrowSep line)
      { st with current_timestamp := some ts }
     else st)
  else if isIndexSkip line then st
  else
    let clean := remove_vtt_tags line
    if clean = [] then st
    else if memStr clean st.seen then st
    else
      let entry :=
        match st.current_timestamp with
        | some t =>
          if include_timestamps = true ∧ t ≠ [] then ('[' :: t) ++ (']' :: ' ' :: clean)
          else clean
        | none => clean
      { st with builder := st.builder ++ [entry], seen := st.seen ++ [clean] }

/-- The whole line loop of `process_vtt_file`, started from the empty
state. -/
def vttFold (content : Str) (include_timestamps : Bool) : VttState :=
  (splitNl content).foldl (processLine include_timestamps) initState

/-- The list `text_builder` after the loop: the emitted segments. -/
def vtt_segments (content : Str) (include_timestamps : Bool) : List Str :=
  (vttFold content include_timestamps).builder

/-- The function `process_vtt_file` on the file's contents (the file read is modelled by
passing the contents; the surrounding `try` never fires in the pure
model).  Empty input short-circuits; otherwise the emitted segments are
joined with a newline (timestamped mode) or a space. -/
def process_vtt_file (content : Str) (include_timestamps : Bool) : Str :=
  if pyStrip content = [] then []
  else joinSep (if include_timestamps then ['\n'] else [' '])
         (vtt_segments content include_timestamps)

/-- The cleaned text a line contributes to the dedup/emission stage, if
any: `none` when the line is skipped (header, timing, index) or strips to
nothing.  Mirrors the branch structure of `processLine`. -/
def lineCandidate (raw : Str) : Option Str :=
  let line := pyStrip raw
  if isHeaderSkip line then none
  else if containsSub arrowSub line then none
  else if isIndexSkip line then none
  else
    let clean := remove_vtt_tags line
    if clean = [] then none else some clean

/-- Keep the first occurrence of each string not already in `seen`,
preserving order (the reference meaning of the document-scoped exact-match
deduplication). -/
def dedupGo (seen : List Str) : List Str → List Str
  | [] => []
  | x :: xs => if memStr x seen then dedupGo seen xs else x :: dedupGo (seen ++ [x]) xs

/-! ## Title derivation (`extract_transcript`, success record) -/

/-- The expression `vtt_file.stem.replace(".en", "").replace(".vtt", "")` from
`extract_transcript`: the caption file name's stem with every occurrence
of `.en`, then of `.vtt`, removed (Python `str.replace` replaces all
occurrences, anywhere in the name). -/
def video_title (fileName : Str) : Str :=
  removeSub '.' ['v', 't', 't'] (removeSub '.' ['e', 'n'] (pathStem fileName))

/-- Whether `suf` is a final segment of `l`. -/
def isSuf (suf l : Str) : Bool := isPre suf.reverse l.reverse

/-- Drop `suf` from the end of `l` when it ends with `suf`. -/
def dropEnd (suf l : Str) : Str :=
  if isSuf suf l then (l.reverse.drop suf.length).reverse else l

/-- Modelled from the spec: the claim's reading of the title derivation —
the known suffixes `.en` and `.vtt` are stripped from the END of the
file name's stem only, leaving the remainder of the name unchanged. -/
def title_spec_end_strip (fileName : Str) : Str :=
  dropEnd ['.', 'v', 't', 't'] (dropEnd ['.', 'e', 'n'] (pathStem fileName))

/-! ## The orchestrator (`main`) -/

/-- The record `main` pushes to the dataset for one URL: the success record
built by `extract_transcript` (abstracted as `α`: its construction is
network and filesystem work outside this core), or the failure record with
its `error` and `attempts` fields. -/
inductive Pushed (α : Type) where
  | ok (result : α)
  | failed (error : Option Str) (attempts : Int)
deriving DecidableEq

/-- One URL's processing outcome with instrumentation: the pushed record,
how many times `extract_transcript` was attempted, and how many 5-second
inter-attempt delays were taken. -/
structure Outcome (α : Type) where
  pushed : Pushed α
  tried : Nat
  sleeps : Nat
deriving DecidableEq

/-- The `while retry_count < max_retries and not success` loop of `main`,
driven by explicit fuel `(max_retries - retry_count).toNat` (the number of
remaining iterations, so the guard holds exactly when the fuel is
positive).  On a failed attempt the count advances, the error is
remembered, and the 5-second sleep is taken exactly when another
iteration remains; when the loop exits without success, the failure
record carries the last error and `attempts = max_retries`. -/
def loopGo (attempt : Nat → Except Str α) (max_retries : Int) :
    Nat → Nat → Option Str → Nat → Nat → Outcome α
  | 0, _, last_error, tried, sleeps => ⟨.failed last_error max_retries, tried, sleeps⟩
  | fuel + 1, retry_count, _, tried, sleeps =>
    match attempt retry_count with
    | .ok a => ⟨.ok a, tried + 1, sleeps⟩
    | .error e =>
      loopGo attempt max_retries fuel (retry_count + 1) (some e) (tried + 1)
        (if fuel = 0 then sleeps else sleeps + 1)

/-- Per-URL processing in `main`: run the retry loop from
`retry_count = 0`, `last_error = None`. -/
def processUrl (attempt : Nat → Except Str α) (max_retries : Int) : Outcome α :=
  loopGo attempt max_retries max_retries.toNat 0 none 0 0

/-- The `for video_url in all_urls` batch: one pushed record per URL. -/
def runBatch (attemptFor : Str → Nat → Except Str α) (max_retries : Int)
    (urls : List Str) : List (Pushed α) :=
  urls.map fun u => (processUrl (attemptFor u) max_retries).pushed

/-- The `ValueError` message of `extract_transcript` for an unparseable
URL. -/
def invalid_msg (url : Str) : Str :=
  "Could not extract video ID from URL: ".data ++ url

/-- One call of `extract_transcript` as seen by the retry loop: the video
id is parsed first and an unparseable URL raises the `ValueError` above;
everything after (the yt-dlp fetch, caption lookup, VTT processing) is
abstracted as `fetch`, indexed by the attempt number. -/
def extract_attempt (fetch : Nat → Except Str α) (url : Str) (i : Nat) :
    Except Str α :=
  match extract_video_id url with
  | none => .error (invalid_msg url)
  | some _ => fetch i

/-- Modelled from the spec: the claim's statement of the sequence-index
discard rule — the line consists solely of digits, or it matches the bare
timestamp pattern and contains no colon. -/
def spec_index_rule (line : Str) : Bool :=
  isAllDigits line || (bareTs line && !hasColon line)

/-! ## Helper lemmas -/

lemma memStr_eq_true_iff (x : Str) : ∀ l, memStr x l = true ↔ x ∈ l := by
  intro l
  induction l with
  | nil => simp [memStr]
  | cons y ys ih => by_cases h : x = y <;> simp [memStr, h, ih]

/-- How one loop iteration relates to the line's candidate text: lines with
no candidate leave `text_builder` and `seen_segments` unchanged; a line
whose candidate is already seen changes nothing; a fresh candidate appends
it to `seen_segments` and appends exactly one segment to `text_builder`. -/
lemma processLine_spec (b : Bool) (st : VttState) (raw : Str) :
    (lineCandidate raw = none →
      (processLine b st raw).builder = st.builder ∧ (processLine b st raw).seen = st.seen) ∧
    (∀ c, lineCandidate raw = some c →
      (memStr c st.seen = true → processLine b st raw = st) ∧
      (memStr c st.seen = false →
        (processLine b st raw).seen = st.seen ++ [c] ∧
        (processLine b st raw).builder.length = st.builder.length + 1)) := by
  by_cases h1 : isHeaderSkip (pyStrip raw) = true
  · simp [processLine, lineCandidate, h1]
  · by_cases h2 : containsSub arrowSub (pyStrip raw) = true
    · cases b <;> simp [processLine, lineCandidate, h1, h2]
    · by_cases h3 : isIndexSkip (pyStrip raw) = true
      · simp [processLine, lineCandidate, h1, h2, h3]
      · by_cases h4 : remove_vtt_tags (pyStrip raw) = []
        · simp [processLine, lineCandidate, h1, h2, h3, h4]
        · refine ⟨?_, ?_⟩
          · intro hnone
            simp [lineCandidate, h1, h2, h3, h4] at hnone
          · intro c hc
            have hceq : remove_vtt_tags (pyStrip raw) = c := by
              simpa [lineCandidate, h1, h2, h3, h4] using hc
            have h4c : ¬(c = []) := by rw [← hceq]; exact h4
            constructor
            · intro hm
              simp [processLine, h1, h2, h3, h4, hceq, h4c, hm]
            · intro hm
              simp [processLine, h1, h2, h3, h4, hceq, h4c, hm]

lemma foldl_seen_builder (b : Bool) :
    ∀ (lines : List Str) (st : VttState),
      ((lines.foldl (processLine b) st).seen =
        st.seen ++ dedupGo st.seen (lines.filterMap lineCandidate)) ∧
      ((lines.foldl (processLine b) st).builder.length =
        st.builder.length + (dedupGo st.seen (lines.filterMap lineCandidate)).length) := by
  intro lines
  induction lines with
  | nil => intro st; simp [dedupGo]
  | cons l rest ih =>
    intro st
    simp only [List.foldl_cons, List.filterMap_cons]
    cases hc : lineCandidate l with
    | none =>
      obtain ⟨hb, hs⟩ := (processLine_spec b st l).1 hc
      obtain ⟨ih1, ih2⟩ := ih (processLine b st l)
      rw [ih1, ih2, hb, hs]
      exact ⟨rfl, rfl⟩
    | some c =>
      cases hm : memStr c st.seen with
      | true =>
        have heq : processLine b st l = st := ((processLine_spec b st l).2 c hc).1 hm
        obtain ⟨ih1, ih2⟩ := ih st
        rw [heq, ih1, ih2]
        simp [dedupGo, hm]
      | false =>
        obtain ⟨hs, hb⟩ := ((processLine_spec b st l).2 c hc).2 hm
        obtain ⟨ih1, ih2⟩ := ih (processLine b st l)
        constructor
        · rw [ih1, hs]
          simp [dedupGo, hm, List.append_assoc]
        · rw [ih2, hs, hb]
          simp [dedupGo, hm]
          omega

lemma dedupGo_nodup_fresh : ∀ (l : List Str) (seen : List Str),
    (dedupGo seen l).Nodup ∧ ∀ x ∈ dedupGo seen l, memStr x seen = false := by
  intro l
  induction l with
  | nil => intro seen; simp [dedupGo]
  | cons x xs ih =>
    intro seen
    cases hm : memStr x seen with
    | true =>
      have hd : dedupGo seen (x :: xs) = dedupGo seen xs := by simp [dedupGo, hm]
      rw [hd]
      exact ih seen
    | false =>
      have hd : dedupGo seen (x :: xs) = x :: dedupGo (seen ++ [x]) xs := by
        simp [dedupGo, hm]
      rw [hd]
      obtain ⟨hnd, hfresh⟩ := ih (seen ++ [x])
      simp only [List.nodup_cons]
      refine ⟨⟨?_, hnd⟩, ?_⟩
      · intro hx
        have hf := hfresh x hx
        have hmem : memStr x (seen ++ [x]) = true :=
          (memStr_eq_true_iff _ _).mpr (by simp)
        rw [hmem] at hf
        cases hf
      · intro y hy
        rcases List.mem_cons.mp hy with hy1 | hy2
        · subst hy1; exact hm
        · have hf := hfresh y hy2
          rw [← Bool.not_eq_true, memStr_eq_true_iff] at hf ⊢
          intro hcon
          exact hf (by simp [hcon])

lemma pyStrip_eq_nil_iff (l : Str) : pyStrip l = [] ↔ l.all isPySpace = true := by
  unfold pyStrip
  rw [List.reverse_eq_nil_iff, List.dropWhile_eq_nil_iff]
  constructor
  · intro h
    rw [List.all_eq_true]
    intro c hc
    rcases List.mem_append.mp (by
        rw [List.takeWhile_append_dropWhile (p := isPySpace) (l := l)]; exact hc :
        c ∈ l.takeWhile isPySpace ++ l.dropWhile isPySpace) with hm | hm
    · exact List.mem_takeWhile_imp hm
    · exact h c (List.mem_reverse.mpr hm)
  · intro h c hc
    rw [List.all_eq_true] at h
    exact h c ((List.dropWhile_suffix isPySpace).sublist.subset (List.mem_reverse.mp hc))

lemma splitNl_ne_nil (content : Str) : splitNl content ≠ [] := by
  cases content with
  | nil => simp [splitNl]
  | cons c rest =>
    unfold splitNl
    cases splitNl rest with
    | nil => simp
    | cons l ls =>
      by_cases h : c = '\n' <;> simp [h]

lemma splitNl_all_space : ∀ (content : Str), content.all isPySpace = true →
    ∀ line ∈ splitNl content, line.all isPySpace = true := by
  intro content
  induction content with
  | nil =>
    intro _ line hl
    simp [splitNl] at hl
    simp [hl]
  | cons c rest ih =>
    intro hall line hl
    simp only [List.all_cons, Bool.and_eq_true] at hall
    obtain ⟨hc, hrest⟩ := hall
    unfold splitNl at hl
    cases hsp : splitNl rest with
    | nil => exact absurd hsp (splitNl_ne_nil rest)
    | cons l ls =>
      rw [hsp] at hl
      by_cases hcn : c = '\n'
      · simp only [hcn, if_pos rfl] at hl
        rcases List.mem_cons.mp hl with hl1 | hl2
        · simp [hl1]
        · exact ih hrest line (by rw [hsp]; exact hl2)
      · simp only [if_neg hcn] at hl
        rcases List.mem_cons.mp hl with hl1 | hl2
        · subst hl1
          simp only [List.all_cons, Bool.and_eq_true]
          exact ⟨hc, ih hrest l (by rw [hsp]; exact List.mem_cons_self l ls)⟩
        · exact ih hrest line (by rw [hsp]; exact List.mem_cons_of_mem l hl2)

lemma lineCandidate_of_space (line : Str) (h : line.all isPySpace = true) :
    lineCandidate line = none := by
  have hs : pyStrip line = [] := (pyStrip_eq_nil_iff line).mpr h
  simp [lineCandidate, hs, isHeaderSkip]

lemma builder_nil_of_no_candidates (content : Str) (b : Bool)
    (h : ∀ l ∈ splitNl content, lineCandidate l = none) :
    (vttFold content b).builder = [] := by
  have hfm : (splitNl content).filterMap lineCandidate = [] := by
    rw [List.filterMap_eq_nil_iff]
    exact h
  have hb := (foldl_seen_builder b (splitNl content) initState).2
  rw [hfm] at hb
  have hlen : (vttFold content b).builder.length = 0 := by
    unfold vttFold
    simpa [initState, dedupGo] using hb
  exact List.length_eq_zero.mp hlen

lemma isPre_append_self : ∀ (pat ys : Str), isPre pat (pat ++ ys) = true := by
  intro pat
  induction pat with
  | nil => intro ys; rfl
  | cons a as ih => intro ys; simp [isPre, ih]

lemma containsSub_append_left (pat : Str) :
    ∀ (xs ys : Str), containsSub pat ys = true → containsSub pat (xs ++ ys) = true := by
  intro xs
  induction xs with
  | nil => intro ys h; simpa using h
  | cons c cs ih =>
    intro ys h
    simp only [List.cons_append, containsSub, Bool.or_eq_true]
    exact Or.inr (ih ys h)

lemma containsSub_at (pat xs ys : Str) :
    containsSub pat (xs ++ (pat ++ ys)) = true := by
  apply containsSub_append_left
  cases hp : pat ++ ys with
  | nil =>
    have hp' : pat = [] := (List.append_eq_nil.mp hp).1
    subst hp'
    rfl
  | cons c rest =>
    simp only [containsSub, Bool.or_eq_true]
    exact Or.inl (hp ▸ isPre_append_self pat ys)

lemma splitFirstOn_exact (s0 : Char) (sep' : Str) :
    ∀ (S ys : Str), (∀ c ∈ S, ¬(s0 = c)) →
      splitFirstOn (s0 :: sep') (S ++ ((s0 :: sep') ++ ys)) = S := by
  intro S
  induction S with
  | nil =>
    intro ys _
    rw [List.nil_append, List.cons_append]
    unfold splitFirstOn
    rw [if_pos]
    simp [isPre, isPre_append_self sep' ys]
  | cons c cs ih =>
    intro ys hne
    have hc : ¬(s0 = c) := hne c (List.mem_cons_self c cs)
    rw [List.cons_append]
    unfold splitFirstOn
    rw [if_neg]
    · rw [ih ys (fun d hd => hne d (List.mem_cons_of_mem c hd))]
    · simp [isPre, hc]

lemma ne_digit (x c : Char) (hc : c.isDigit = true) (hx : x.isDigit = false) :
    ¬(x = c) := by
  rintro rfl
  rw [hc] at hx
  cases hx

lemma allDigit_hasColon_false (l : Str) (h : l.all Char.isDigit = true) :
    hasColon l = false := by
  induction l with
  | nil => rfl
  | cons c rest ih =>
    simp only [List.all_cons, Bool.and_eq_true] at h
    obtain ⟨hc, hrest⟩ := h
    have hne : ¬(c = ':') := by rintro rfl; exact absurd hc (by decide)
    simp [hasColon, hne, ih hrest]

lemma bareTs_hasColon (l : Str) (h : bareTs l = true) : hasColon l = true := by
  unfold bareTs at h
  split at h
  · simp [hasColon, ite_self]
  · simp [hasColon, ite_self]
  · exact absurd h (by simp)

/-- When every attempt fails, the retry loop runs the remaining iterations
to exhaustion: one attempt per unit of fuel, a sleep before each retry but
not after the last failure, and a failure record carrying the error of the
last attempt and `attempts = max_retries`. -/
lemma loopGo_allFail {α : Type} (attempt : Nat → Except Str α) (m : Int) (errf : Nat → Str)
    (hf : ∀ i, attempt i = .error (errf i)) :
    ∀ fuel r le tried sleeps, loopGo attempt m (fuel + 1) r le tried sleeps =
      ⟨.failed (some (errf (r + fuel))) m, tried + fuel + 1, sleeps + fuel⟩ := by
  intro fuel
  induction fuel with
  | zero =>
    intro r le t s
    unfold loopGo
    rw [hf r]
    simp [loopGo]
  | succ f ih =>
    intro r le t s
    unfold loopGo
    rw [hf r]
    simp only [Nat.succ_ne_zero, if_false]
    rw [ih]
    have e1 : r + 1 + f = r + (f + 1) := by omega
    have e2 : t + 1 + f + 1 = t + (f + 1) + 1 := by omega
    have e3 : s + 1 + f = s + (f + 1) := by omega
    rw [e1, e2, e3]

lemma lastDotIdx_append_some (r : Str) (j : Nat) (hr : lastDotIdx r = some j) :
    ∀ l : Str, lastDotIdx (l ++ r) = some (l.length + j) := by
  intro l
  induction l with
  | nil => simpa using hr
  | cons c cs ih =>
    rw [List.cons_append]
    unfold lastDotIdx
    rw [ih]
    simp only [List.length_cons, Option.some.injEq]
    omega

lemma removeSubGo_no_match (p : Char) (ps : Str) :
    ∀ (l : Str) (fuel : Nat), l.length ≤ fuel → (∀ c ∈ l, ¬(c = p)) →
      removeSubGo p ps fuel l = l := by
  intro l
  induction l with
  | nil => intro fuel _ _; cases fuel <;> rfl
  | cons c cs ih =>
    intro fuel hf hne
    cases fuel with
    | zero => simp at hf
    | succ f =>
      have hc : ¬(p = c) := fun e => hne c (List.mem_cons_self c cs) e.symm
      unfold removeSubGo
      rw [if_neg (by simp [isPre, hc])]
      rw [ih f (by simp at hf; omega) (fun d hd => hne d (List.mem_cons_of_mem c hd))]

lemma removeSubGo_strip_end (p : Char) (ps : Str) :
    ∀ (base : Str) (fuel : Nat), base.length + 1 + ps.length ≤ fuel →
      (∀ c ∈ base, ¬(c = p)) →
      removeSubGo p ps fuel (base ++ p :: ps) = base := by
  intro base
  induction base with
  | nil =>
    intro fuel hf _
    cases fuel with
    | zero => simp at hf
    | succ f =>
      simp only [List.nil_append]
      unfold removeSubGo
      have hpre : isPre (p :: ps) (p :: ps) = true := by
        have hx := isPre_append_self (p :: ps) []
        rwa [List.append_nil] at hx
      rw [if_pos hpre, List.drop_length]
      cases f <;> rfl
  | cons c cs ih =>
    intro fuel hf hne
    cases fuel with
    | zero => simp at hf
    | succ f =>
      have hc : ¬(p = c) := fun e => hne c (List.mem_cons_self c cs) e.symm
      simp only [List.cons_append]
      unfold removeSubGo
      rw [if_neg (by simp [isPre, hc])]
      rw [ih f (by simp at hf ⊢; omega) (fun d hd => hne d (List.mem_cons_of_mem c hd))]

/-! ## Claim theorems -/

/-- C1 (counterexample): the URL "https://example.com/page" yields no video
identifier, yet the orchestrator does not fail the item immediately: with
maxRetries = 3 it makes 3 extraction attempts (not a single one) and takes
2 five-second inter-attempt delays (not zero) before the item's failure
record is produced — even with a fetch collaborator that would succeed. -/
theorem C1_invalid_url_counterexample :
    extract_video_id "https://example.com/page".data = none ∧
    (processUrl (extract_attempt (fun _ => Except.ok ())
        "https://example.com/page".data) 3).tried = 3 ∧
    ¬((processUrl (extract_attempt (fun _ => Except.ok ())
        "https://example.com/page".data) 3).tried = 1) ∧
    (processUrl (extract_attempt (fun _ => Except.ok ())
        "https://example.com/page".data) 3).sleeps = 2 ∧
    ¬((processUrl (extract_attempt (fun _ => Except.ok ())
        "https://example.com/page".data) 3).sleeps = 0) := by
  refine ⟨by decide, by decide, by decide, by decide, by decide⟩

/-- C1 (amended): an input URL from which no video identifier can be parsed
is not special-cased by the orchestrator: every attempt fails with the
invalid-input error, the item is retried like any other failure —
maxRetries extraction attempts with a 5-second delay between consecutive
attempts — and only then is the failure record produced, carrying the
invalid-input message and attempts = maxRetries. -/
theorem C1_invalid_url_retried {α : Type} (fetch : Nat → Except Str α) (url : Str)
    (m : Int) (hurl : extract_video_id url = none) (hm : 1 ≤ m) :
    processUrl (extract_attempt fetch url) m =
      ⟨.failed (some (invalid_msg url)) m, m.toNat, m.toNat - 1⟩ := by
  have hf : ∀ i, extract_attempt fetch url i = .error (invalid_msg url) := by
    intro i
    unfold extract_attempt
    rw [hurl]
  have hfuel : m.toNat = (m.toNat - 1) + 1 := by omega
  unfold processUrl
  rw [hfuel, loopGo_allFail _ m (fun _ => invalid_msg url) hf]
  simp

/-- C1 (witness): the amended claim at the unparseable URL
"https://badhost.example/clip" with maxRetries = 3: three attempts, two
delays, one failure record with the invalid-input message. -/
theorem C1_invalid_url_retried_witness :
    extract_video_id "https://badhost.example/clip".data = none ∧
    (1 : Int) ≤ 3 ∧
    processUrl (extract_attempt (fun _ => Except.ok ())
        "https://badhost.example/clip".data) 3 =
      ⟨.failed (some (invalid_msg "https://badhost.example/clip".data)) 3, 3, 2⟩ :=
  ⟨by decide, by decide,
    C1_invalid_url_retried (fun _ => Except.ok ()) "https://badhost.example/clip".data 3
      (by decide) (by decide)⟩

/-- C2: for every caption document and either value of the timestamps flag,
the cleaned texts of the emitted segments (recorded one per emitted
segment, in emission order, as the `seen` component of the final parse
state) contain no two identical entries; they are exactly the document's
candidate cleaned texts deduplicated by exact string match scoped to the
whole document in order of first occurrence; and the number of emitted
segments equals the number of recorded texts. -/
theorem C2_dedup_first_occurrence (content : Str) (b : Bool) :
    (vttFold content b).seen.Nodup ∧
    (vttFold content b).seen = dedupGo [] ((splitNl content).filterMap lineCandidate) ∧
    (vttFold content b).builder.length = (vttFold content b).seen.length := by
  obtain ⟨h1, h2⟩ := foldl_seen_builder b (splitNl content) initState
  have hseen : (vttFold content b).seen =
      dedupGo [] ((splitNl content).filterMap lineCandidate) := by
    unfold vttFold
    simpa [initState] using h1
  refine ⟨?_, hseen, ?_⟩
  · rw [hseen]
    exact (dedupGo_nodup_fresh _ []).1
  · rw [hseen]
    unfold vttFold
    simpa [initState] using h2

/-- C3: the normalizer is a total function of the document (it cannot
raise), and whenever no line of the document contributes usable text —
every line is whitespace-only, a metadata or header marker, a timing line,
a sequence-index marker, or strips to nothing — it returns the empty
string. -/
theorem C3_unusable_input_empty (content : Str) (b : Bool)
    (h : ∀ l ∈ splitNl content, lineCandidate l = none) :
    process_vtt_file content b = [] := by
  have hbuilder := builder_nil_of_no_candidates content b h
  unfold process_vtt_file vtt_segments
  split
  · rfl
  · rw [hbuilder]
    rfl

/-- C3 (witness): a document consisting of the WEBVTT header, a blank line,
a bare sequence index, a timing line, and a tags-only line normalizes to
the empty string. -/
theorem C3_unusable_input_empty_witness :
    (∀ l ∈ splitNl "WEBVTT\n\n42\n00:00:00.000 --> 00:00:01.000\n<c></c>\n".data,
      lineCandidate l = none) ∧
    process_vtt_file "WEBVTT\n\n42\n00:00:00.000 --> 00:00:01.000\n<c></c>\n".data true = [] :=
  ⟨by decide,
    C3_unusable_input_empty "WEBVTT\n\n42\n00:00:00.000 --> 00:00:01.000\n<c></c>\n".data
      true (by decide)⟩

/-- C4: for every caption document, the normalizer's output is the emitted
segment list joined with the newline separator when the timestamps flag is
set and with a single space otherwise — one join, so the two separators
are never mixed in one output. -/
theorem C4_separator_law (content : Str) (b : Bool) :
    process_vtt_file content b =
      joinSep (if b then ['\n'] else [' ']) (vtt_segments content b) := by
  unfold process_vtt_file
  split
  · next hstrip =>
    have hall : content.all isPySpace = true := (pyStrip_eq_nil_iff content).mp hstrip
    have hnone : ∀ l ∈ splitNl content, lineCandidate l = none := fun l hl =>
      lineCandidate_of_space l (splitNl_all_space content hall l hl)
    have hbuilder := builder_nil_of_no_candidates content b hnone
    unfold vtt_segments
    rw [hbuilder]
    rfl
  · rfl

/-- C5: with the timestamps flag set, (i) a timing line whose start time has
the digit form HH:MM:SS.mmm emits nothing and sets the remembered
timestamp to the start time truncated at the first dot, i.e. HH:MM:SS;
(ii) a text line processed under that remembered timestamp — one that is
not skipped, cleans to something, and is unseen — emits exactly the
segment composed of the bracketed truncated timestamp, a space, and the
cleaned text; (iii) a line not containing the timing arrow never changes
the remembered timestamp, so the tag used is that of the most recently
preceding timing line. -/
theorem C5_timestamp_truncation (st st2 st3 : VttState) (raw1 raw2 raw3 : Str)
    (h1 h2 m1 m2 s1 s2 p1 p2 p3 : Char) (rest : Str)
    (hdig : [h1, h2, m1, m2, s1, s2, p1, p2, p3].all Char.isDigit = true)
    (hstrip1 : pyStrip raw1 =
      [h1, h2, ':', m1, m2, ':', s1, s2, '.', p1, p2, p3] ++ (arrowSep ++ rest))
    (hhdr2 : isHeaderSkip (pyStrip raw2) = false)
    (harr2 : containsSub arrowSub (pyStrip raw2) = false)
    (hidx2 : isIndexSkip (pyStrip raw2) = false)
    (hclean2 : ¬(remove_vtt_tags (pyStrip raw2) = []))
    (hseen2 : memStr (remove_vtt_tags (pyStrip raw2)) st2.seen = false)
    (hts2 : st2.current_timestamp = some [h1, h2, ':', m1, m2, ':', s1, s2])
    (harr3 : containsSub arrowSub (pyStrip raw3) = false) :
    (processLine true st raw1 =
      { st with current_timestamp := some [h1, h2, ':', m1, m2, ':', s1, s2] }) ∧
    ((processLine true st2 raw2).builder =
      st2.builder ++
        ['[' :: ([h1, h2, ':', m1, m2, ':', s1, s2] ++
          ']' :: ' ' :: remove_vtt_tags (pyStrip raw2))]) ∧
    ((processLine true st3 raw3).current_timestamp = st3.current_timestamp) := by
  obtain ⟨hd1, hd2, hd3, hd4, hd5, hd6, hd7, hd8, hd9⟩ : h1.isDigit = true ∧
      h2.isDigit = true ∧ m1.isDigit = true ∧ m2.isDigit = true ∧ s1.isDigit = true ∧
      s2.isDigit = true ∧ p1.isDigit = true ∧ p2.isDigit = true ∧ p3.isDigit = true := by
    simpa using hdig
  have hN : ¬('N' = h1) := ne_digit 'N' h1 hd1 (by decide)
  have hS : ¬('S' = h1) := ne_digit 'S' h1 hd1 (by decide)
  have hK : ¬('K' = h1) := ne_digit 'K' h1 hd1 (by decide)
  have hL : ¬('L' = h1) := ne_digit 'L' h1 hd1 (by decide)
  have hhdr1 : isHeaderSkip
      ([h1, h2, ':', m1, m2, ':', s1, s2, '.', p1, p2, p3] ++ (arrowSep ++ rest)) = false := by
    simp [isHeaderSkip, isPre, hN, hS, hK, hL]
  have harr1 : containsSub arrowSub
      ([h1, h2, ':', m1, m2, ':', s1, s2, '.', p1, p2, p3] ++ (arrowSep ++ rest)) = true := by
    have hx := containsSub_at arrowSub
      ([h1, h2, ':', m1, m2, ':', s1, s2, '.', p1, p2, p3] ++ [' ']) (' ' :: rest)
    simpa [arrowSep, arrowSub, List.append_assoc] using hx
  have hsplit1 : splitFirstOn arrowSep
      ([h1, h2, ':', m1, m2, ':', s1, s2, '.', p1, p2, p3] ++ (arrowSep ++ rest)) =
      [h1, h2, ':', m1, m2, ':', s1, s2, '.', p1, p2, p3] := by
    have hne : ∀ c ∈ [h1, h2, ':', m1, m2, ':', s1, s2, '.', p1, p2, p3], ¬(' ' = c) := by
      intro c hc
      simp only [List.mem_cons, List.not_mem_nil, or_false] at hc
      rcases hc with rfl | rfl | rfl | rfl | rfl | rfl | rfl | rfl | rfl | rfl | rfl | rfl
      · exact ne_digit ' ' c hd1 (by decide)
      · exact ne_digit ' ' c hd2 (by decide)
      · decide
      · exact ne_digit ' ' c hd3 (by decide)
      · exact ne_digit ' ' c hd4 (by decide)
      · decide
      · exact ne_digit ' ' c hd5 (by decide)
      · exact ne_digit ' ' c hd6 (by decide)
      · decide
      · exact ne_digit ' ' c hd7 (by decide)
      · exact ne_digit ' ' c hd8 (by decide)
      · exact ne_digit ' ' c hd9 (by decide)
    exact splitFirstOn_exact ' ' ['-', '-', '>', ' ']
      [h1, h2, ':', m1, m2, ':', s1, s2, '.', p1, p2, p3] rest hne
  have hfmt : format_vtt_timestamp [h1, h2, ':', m1, m2, ':', s1, s2, '.', p1, p2, p3] =
      [h1, h2, ':', m1, m2, ':', s1, s2] := by
    have hsh : [h1, h2, ':', m1, m2, ':', s1, s2, '.', p1, p2, p3] =
        [h1, h2, ':', m1, m2, ':', s1, s2] ++ (('.' :: []) ++ [p1, p2, p3]) := by simp
    have hne : ∀ c ∈ [h1, h2, ':', m1, m2, ':', s1, s2], ¬('.' = c) := by
      intro c hc
      simp only [List.mem_cons, List.not_mem_nil, or_false] at hc
      rcases hc with rfl | rfl | rfl | rfl | rfl | rfl | rfl | rfl
      · exact ne_digit '.' c hd1 (by decide)
      · exact ne_digit '.' c hd2 (by decide)
      · decide
      · exact ne_digit '.' c hd3 (by decide)
      · exact ne_digit '.' c hd4 (by decide)
      · decide
      · exact ne_digit '.' c hd5 (by decide)
      · exact ne_digit '.' c hd6 (by decide)
    unfold format_vtt_timestamp
    rw [hsh]
    exact splitFirstOn_exact '.' [] [h1, h2, ':', m1, m2, ':', s1, s2] [p1, p2, p3] hne
  simp only [List.cons_append, List.nil_append] at hhdr1 harr1 hsplit1
  refine ⟨?_, ?_, ?_⟩
  · simp [processLine, hstrip1, hhdr1, harr1, hsplit1, hfmt]
  · simp [processLine, hhdr2, harr2, hidx2, hclean2, hseen2, hts2]
  · by_cases hh : isHeaderSkip (pyStrip raw3) = true
    · simp [processLine, hh]
    · simp only [processLine]
      rw [if_neg (by simp [hh]), if_neg (by simp [harr3])]
      split_ifs <;> rfl

/-- C5 (witness): the spec's example — the timing line
"00:01:02.345 --> 00:01:05.000" followed by the text line "hello" yields
the single segment "[00:01:02] hello", and a non-timing line ("NOTE x")
leaves the remembered timestamp unchanged. -/
theorem C5_timestamp_truncation_witness :
    ([('0' : Char), '0', '0', '1', '0', '2', '3', '4', '5'].all Char.isDigit = true) ∧
    (pyStrip "00:01:02.345 --> 00:01:05.000".data =
      ['0', '0', ':', '0', '1', ':', '0', '2', '.', '3', '4', '5'] ++
        (arrowSep ++ "00:01:05.000".data)) ∧
    (isHeaderSkip (pyStrip "hello".data) = false) ∧
    (containsSub arrowSub (pyStrip "hello".data) = false) ∧
    (isIndexSkip (pyStrip "hello".data) = false) ∧
    (¬(remove_vtt_tags (pyStrip "hello".data) = [])) ∧
    (memStr (remove_vtt_tags (pyStrip "hello".data))
      (VttState.mk [] [] (some ['0', '0', ':', '0', '1', ':', '0', '2'])).seen = false) ∧
    ((VttState.mk [] [] (some ['0', '0', ':', '0', '1', ':', '0', '2'])).current_timestamp =
      some ['0', '0', ':', '0', '1', ':', '0', '2']) ∧
    (containsSub arrowSub (pyStrip "NOTE x".data) = false) ∧
    (processLine true initState "00:01:02.345 --> 00:01:05.000".data =
      { initState with current_timestamp := some ['0', '0', ':', '0', '1', ':', '0', '2'] }) ∧
    ((processLine true (VttState.mk [] [] (some ['0', '0', ':', '0', '1', ':', '0', '2']))
        "hello".data).builder = ["[00:01:02] hello".data]) ∧
    ((processLine true initState "NOTE x".data).current_timestamp =
      initState.current_timestamp) := by
  have h := C5_timestamp_truncation initState
    (VttState.mk [] [] (some ['0', '0', ':', '0', '1', ':', '0', '2'])) initState
    "00:01:02.345 --> 00:01:05.000".data "hello".data "NOTE x".data
    '0' '0' '0' '1' '0' '2' '3' '4' '5' "00:01:05.000".data
    (by decide) (by decide) (by decide) (by decide) (by decide) (by decide) (by decide)
    (by decide) (by decide)
  exact ⟨by decide, by decide, by decide, by decide, by decide, by decide, by decide,
    by decide, by decide, h.1, h.2.1, h.2.2⟩

/-- C6: on every line, the code's sequence-index guard — the regex
`^\d+$|^\d{1,2}:\d{2}(:\d{2})?(\.\d{3})?$` conjoined with the absence of a
colon — is extensionally equal to the specified rule "the line consists
solely of digits, or it matches the bare timestamp pattern and contains no
colon" (both in fact collapse to the digits-only case, since a bare
timestamp match forces a colon and a digits-only line excludes one). -/
theorem C6_index_guard_equivalence (l : Str) : isIndexSkip l = spec_index_rule l := by
  unfold isIndexSkip spec_index_rule is_timestamp_line
  cases hd : isAllDigits l with
  | true =>
    have hall : l.all Char.isDigit = true := by
      unfold isAllDigits at hd
      split at hd
      · exact absurd hd (by simp)
      · exact hd
    simp [allDigit_hasColon_false l hall]
  | false => simp

/-- C7: video-id extraction maps the canonical watch URL and the short-link
URL for dQw4w9WgXcQ to that 11-character id, likewise recognizes the
shorts and embed URL shapes, and yields no id for a URL matching no
recognized shape — in which case every extraction attempt for that URL
fails with the per-item invalid-input error. -/
theorem C7_url_extraction :
    extract_video_id "https://www.youtube.com/watch?v=dQw4w9WgXcQ".data =
      some "dQw4w9WgXcQ".data ∧
    extract_video_id "https://youtu.be/dQw4w9WgXcQ".data = some "dQw4w9WgXcQ".data ∧
    extract_video_id "https://www.youtube.com/shorts/dQw4w9WgXcQ".data =
      some "dQw4w9WgXcQ".data ∧
    extract_video_id "https://www.youtube.com/embed/dQw4w9WgXcQ".data =
      some "dQw4w9WgXcQ".data ∧
    "dQw4w9WgXcQ".data.length = 11 ∧
    extract_video_id "https://example.com/page2".data = none ∧
    (∀ i : Nat, extract_attempt (fun _ => Except.ok ()) "https://example.com/page2".data i =
      .error (invalid_msg "https://example.com/page2".data)) := by
  refine ⟨by decide, by decide, by decide, by decide, by decide, by decide, fun i => rfl⟩

/-- C8: when every extraction attempt for a URL fails, the orchestrator
emits exactly one failure record for it, carrying the error message of the
last failed attempt and attempts = maxRetries, after making exactly
maxRetries attempts; and the batch always emits exactly one record per
input URL. -/
theorem C8_exhaustion_record {α : Type} (attempt : Nat → Except Str α)
    (attemptFor : Str → Nat → Except Str α) (m : Int) (errf : Nat → Str)
    (urls : List Str) (hm : 1 ≤ m) (hf : ∀ i, attempt i = .error (errf i)) :
    (processUrl attempt m).pushed = .failed (some (errf (m.toNat - 1))) m ∧
    (processUrl attempt m).tried = m.toNat ∧
    (runBatch attemptFor m urls).length = urls.length := by
  have hfuel : m.toNat = (m.toNat - 1) + 1 := by omega
  refine ⟨?_, ?_, ?_⟩
  · unfold processUrl
    rw [hfuel, loopGo_allFail attempt m errf hf]
    simp
  · unfold processUrl
    rw [hfuel, loopGo_allFail attempt m errf hf]
    simp
  · unfold runBatch
    simp

/-- C8 (witness): an attempt that always fails with "boom" under
maxRetries = 3 yields the failure record with that message and attempts
field 3 after 3 attempts, and a two-URL batch emits two records. -/
theorem C8_exhaustion_record_witness :
    (1 : Int) ≤ 3 ∧
    ((processUrl (fun _ : Nat => (Except.error "boom".data : Except Str Unit)) 3).pushed =
      .failed (some "boom".data) 3) ∧
    ((processUrl (fun _ : Nat => (Except.error "boom".data : Except Str Unit)) 3).tried = 3) ∧
    ((runBatch (fun _ _ => (Except.error "e".data : Except Str Unit)) 3
        ["u1".data, "u2".data]).length = 2) := by
  have h := C8_exhaustion_record (fun _ : Nat => (Except.error "boom".data : Except Str Unit))
    (fun _ _ => (Except.error "e".data : Except Str Unit)) 3 (fun _ => "boom".data)
    ["u1".data, "u2".data] (by decide) (fun i => rfl)
  exact ⟨by decide, h.1, h.2.1, h.2.2⟩

/-- C9 (counterexample): for the caption file name "intro.english.en.vtt"
the code derives the title "introglish" — `str.replace` removes the ".en"
occurrence in the middle of the name as well — whereas stripping the known
suffixes only from the end of the stem would leave "intro.english"; the
remainder of the name is not left unchanged. -/
theorem C9_title_counterexample :
    video_title "intro.english.en.vtt".data = "introglish".data ∧
    title_spec_end_strip "intro.english.en.vtt".data = "intro.english".data ∧
    ¬(video_title "intro.english.en.vtt".data =
        title_spec_end_strip "intro.english.en.vtt".data) := by
  refine ⟨by decide, by decide, by decide⟩

/-- C9 (amended): the title is the stem with every occurrence of ".en" and
then of ".vtt" removed, anywhere in the name; when the base name contains
no dot — so the only occurrences are the trailing ".en.vtt" suffixes —
this agrees with the claim: the title is the base name unchanged. -/
theorem C9_title_suffix_strip (base : Str) (hdot : ∀ c ∈ base, ¬(c = '.')) :
    video_title (base ++ ['.', 'e', 'n', '.', 'v', 't', 't']) = base := by
  have hstem : pathStem (base ++ ['.', 'e', 'n', '.', 'v', 't', 't']) =
      base ++ ['.', 'e', 'n'] := by
    simp only [pathStem,
      lastDotIdx_append_some ['.', 'e', 'n', '.', 'v', 't', 't'] 3 (by decide) base]
    rw [if_pos (by simp [List.length_append])]
    rw [List.take_append_eq_append_take]
    rw [List.take_of_length_le (by omega)]
    have h3 : base.length + 3 - base.length = 3 := by omega
    rw [h3]
    rfl
  unfold video_title
  rw [hstem]
  have hen : removeSub '.' ['e', 'n'] (base ++ ['.', 'e', 'n']) = base := by
    unfold removeSub
    exact removeSubGo_strip_end '.' ['e', 'n'] base _ (by simp [List.length_append]) hdot
  rw [hen]
  unfold removeSub
  exact removeSubGo_no_match '.' ['v', 't', 't'] base base.length le_rfl hdot

/-- C9 (witness): the dot-free base name "intro" with the ".en.vtt"
suffixes gives the title "intro". -/
theorem C9_title_suffix_strip_witness :
    (∀ c ∈ "intro".data, ¬(c = '.')) ∧
    video_title ("intro".data ++ ['.', 'e', 'n', '.', 'v', 't', 't']) = "intro".data :=
  ⟨by decide, C9_title_suffix_strip "intro".data (by decide)⟩

/-- C10: when maxRetries is zero or negative, the retry loop body never
runs: no extraction attempt is made, no delay is taken, and the emitted
failure record carries attempts = maxRetries and a null error (the
last-error variable was never assigned). -/
theorem C10_nonpositive_retries {α : Type} (attempt : Nat → Except Str α) (m : Int)
    (hm : m ≤ 0) : processUrl attempt m = ⟨.failed none m, 0, 0⟩ := by
  unfold processUrl
  rw [Int.toNat_of_nonpos hm]
  rfl

/-- C10 (witness): maxRetries = 0 with an attempt that would succeed still
produces the failure record with null error, zero attempts made. -/
theorem C10_nonpositive_retries_witness :
    (0 : Int) ≤ 0 ∧
    processUrl (fun _ : Nat => (Except.ok 7 : Except Str Nat)) 0 =
      ⟨.failed none 0, 0, 0⟩ :=
  ⟨by decide, C10_nonpositive_retries (fun _ : Nat => (Except.ok 7 : Except Str Nat)) 0
    (by decide)⟩
